import Mathlib

/-!
Verification of the parse-tree representation module of the jedi repository
(`jedi/parser/representation.py`).

Each Python class or function that the claims bear on is shallowly embedded as
a Lean definition; mutable pointer structures (`Flow.next`, parent links) are
embedded as explicit heaps (functions from numeric object identities), and
Python exceptions are embedded as `Option`/`Except` failure values.
-/

namespace JediRepr

/-! ## Leaf / Node tree: `_Leaf.get_code`, `Simple.get_code`, `Simple.move`

A tree is either a leaf (carrying `value`, `start_pos` and the whitespace
`prefix` attribute, here called `pfx`) or an interior node with an ordered
child list, exactly as in `_Leaf` / `Simple`. -/

inductive Tree where
  | leaf (pfx value : String) (start_pos : Int × Int)
  | node (children : List Tree)

mutual

/-- Embeds `_Leaf.get_code` (`return self.prefix + self.value`) and
`Simple.get_code` (`return "".join(c.get_code() for c in self.children)`). -/
def get_code : Tree → String
  | .leaf p v _ => p ++ v
  | .node cs => get_code_list cs

/-- The `"".join` over the children used by `Simple.get_code`. -/
def get_code_list : List Tree → String
  | [] => ""
  | t :: ts => get_code t ++ get_code_list ts

end

mutual

/-- The leaves of a tree in order, each as its `(prefix, value)` pair. -/
def leaves : Tree → List (String × String)
  | .leaf p v _ => [(p, v)]
  | .node cs => leaves_list cs

def leaves_list : List Tree → List (String × String)
  | [] => []
  | t :: ts => leaves t ++ leaves_list ts

end

/-- Concatenation of the `prefix ++ value` texts of a leaf sequence. -/
def textOf (l : List (String × String)) : String :=
  l.foldr (fun pv acc => pv.1 ++ pv.2 ++ acc) ""

/-- The full source text held by the tree's leaves. -/
def leafText (t : Tree) : String := textOf (leaves t)

/-- Modelled from the spec: the tokenizer and the parser are not part of the
source under inspection (only `representation.py` is).  Per the spec, a parse
of source text `S` produces a tree in which every leaf's `prefix` captures all
whitespace and comments since the previous leaf, so the leaves' `prefix` and
`value` texts jointly cover `S` exactly, in order. -/
def IsParseOf (t : Tree) (S : String) : Prop := leafText t = S

mutual

/-- Embeds `Simple.move`: every leaf below the node gets its `start_pos`
shifted by `(line_offset, column_offset)`; nothing else is touched. -/
def move : Int → Int → Tree → Tree
  | lo, co, .leaf p v sp => .leaf p v (sp.1 + lo, sp.2 + co)
  | lo, co, .node cs => .node (move_list lo co cs)

def move_list : Int → Int → List Tree → List Tree
  | _, _, [] => []
  | lo, co, t :: ts => move lo co t :: move_list lo co ts

end

/-- A tree with the positions erased: the child structure together with every
leaf's `prefix` and `value`. -/
inductive Shape where
  | leaf (pfx value : String)
  | node (children : List Shape)

mutual

def shape_of : Tree → Shape
  | .leaf p v _ => .leaf p v
  | .node cs => .node (shape_of_list cs)

def shape_of_list : List Tree → List Shape
  | [] => []
  | t :: ts => shape_of t :: shape_of_list ts

end

/-! ## Concrete syntax trees for statements

`PyTree` models the parse nodes that `Statement.get_defined_names`,
`Import.get_defined_names` and `Name.assignment_indexes` walk: a leaf is one
of the `_Leaf` subclasses (`Whitespace`, `Name`, `Literal`, `Operator`,
`Keyword`), an interior node is a `Node` with its grammar symbol
(`python_symbols`). -/

inductive LeafKind where
  | whitespace
  | name
  | literal
  | operator
  | keyword
deriving DecidableEq

/-- The grammar symbols the embedded functions test with `is_node`; symbols
never tested by name are collapsed into `other_sym`. -/
inductive Sym where
  | testlist_star_expr
  | testlist_comp
  | atom
  | power
  | trailer
  | other_sym
deriving DecidableEq

inductive PyTree where
  | pleaf (kind : LeafKind) (value : String)
  | pnode (sym : Sym) (children : List PyTree)

/-- Embeds `is_node(node, symbol_name)`: an `isinstance(node, Node)` check
plus a symbol comparison (leaves are never `Node`s). -/
def is_node : PyTree → Sym → Bool
  | .pnode s _, s2 => s = s2
  | .pleaf _ _, _ => false

/-- Embeds Python `x == 'str'` on a tree object: `Operator.__eq__` and
`Keyword.__eq__` compare `self.value` with the string; every other class
falls back to identity, which is never `True` against a string. -/
def py_eq_str : PyTree → String → Bool
  | .pleaf .operator v, s => v = s
  | .pleaf .keyword v, s => v = s
  | _, _ => false

/-- Embeds Python `x != 'str'`: `Operator.__ne__` / `Keyword.__ne__` compare
values; all other classes compare by identity, so `!=` a string is `True`. -/
def py_ne_str : PyTree → String → Bool
  | .pleaf .operator v, s => v ≠ s
  | .pleaf .keyword v, s => v ≠ s
  | _, _ => true

/-- The `.value` attribute: present on every `_Leaf`, an `AttributeError`
(`none`) on a `Node`. -/
def leafValue : PyTree → Option String
  | .pleaf _ v => some v
  | .pnode _ _ => none

/-- The `.children` attribute: present on a `Node`, an `AttributeError`
(`none`) on a leaf. -/
def childrenOf : PyTree → Option (List PyTree)
  | .pnode _ cs => some cs
  | .pleaf _ _ => none

/-- Python slice `l[::2]`: the elements at even indexes. -/
def everyOther {α : Type} : List α → List α
  | [] => []
  | [x] => [x]
  | x :: _ :: rest => x :: everyOther rest

/-- Python indexing `l[i]` with negative indexes allowed; `none` is an
`IndexError`. -/
def pyIndex {α : Type} (l : List α) (i : Int) : Option α :=
  if i < 0 then
    if (l.length : Int) + i < 0 then none
    else l.get? ((l.length : Int) + i).toNat
  else l.get? i.toNat

/-- Embeds the inner `check_tuple` of `Statement.get_defined_names`
(the live algorithm, lines 1112-1127).  The `fuel` argument bounds the
recursion depth (Python recurses on the finite tree); `none` is an
uncaught exception or exhausted fuel.

* `testlist_star_expr` / `testlist_comp`: recurse on `children[::2]`;
* `atom`: recurse on `children[1]`;
* `power`: if `children[-2] != '**'`, look at the last trailer; an attribute
  trailer (`children[0] == '.'`) contributes `trailer.children[1]`, anything
  else contributes no name;
* any other object: the object itself is the bound name.
-/
def check_tuple : Nat → PyTree → Option (List PyTree)
  | 0, _ => none
  | _ + 1, .pleaf k v => some [.pleaf k v]
  | fuel + 1, .pnode s cs =>
    if s = .testlist_star_expr ∨ s = .testlist_comp then
      ((everyOther cs).mapM (check_tuple fuel)).map List.flatten
    else if s = .atom then
      match cs.get? 1 with
      | some c => check_tuple fuel c
      | none => none
    else if s = .power then
      match pyIndex cs (-2) with
      | none => none
      | some penult =>
        if py_ne_str penult "**" then
          match pyIndex cs (-1) with
          | none => none
          | some tr =>
            match childrenOf tr with
            | none => none
            | some tcs =>
              match tcs.get? 0 with
              | none => none
              | some t0 =>
                if py_eq_str t0 "." then
                  match tcs.get? 1 with
                  | none => none
                  | some t1 => some [t1]
                else some []
        else some []
    else some [.pnode s cs]

/-- The index sequence `range(0, len(children) - 2, 2)` of
`Statement.get_defined_names`. -/
def stmt_target_indexes (len : Nat) : List Nat :=
  (List.range len).filter (fun i => i % 2 == 0 && i + 2 < len)

/-- The generator body of `Statement.get_defined_names`: for each index `i`
of `range(0, len - 2, 2)` whose following child has `.value == '='`, chain in
`check_tuple(children[i])`.  A `Node` at position `i + 1` has no `.value`
attribute, so that case is an error. -/
def collect_defined (fuel : Nat) (children : List PyTree) :
    List Nat → Option (List PyTree)
  | [] => some []
  | i :: rest =>
    match children.get? (i + 1) with
    | none => none
    | some op =>
      match leafValue op with
      | none => none
      | some v =>
        if v = "=" then
          match children.get? i with
          | none => none
          | some t =>
            match check_tuple fuel t, collect_defined fuel children rest with
            | some ns, some more => some (ns ++ more)
            | _, _ => none
        else collect_defined fuel children rest

/-- Embeds the live `Statement.get_defined_names` (lines 1112-1131), applied
to the statement's child list. -/
def Statement_get_defined_names (fuel : Nat) (children : List PyTree) :
    Option (List PyTree) :=
  collect_defined fuel children (stmt_target_indexes children.length)

/-- Embeds the live `Import.get_defined_names` (lines 999-1004): if
`children[0] == 'import'` return `children[1:]`, otherwise (a `from` import)
return `[children[-1]]`.  `none` is the `IndexError` on an empty child
list. -/
def Import_get_defined_names (children : List PyTree) :
    Option (List PyTree) :=
  match children.get? 0 with
  | none => none
  | some c0 =>
    if py_eq_str c0 "import" then some (children.drop 1)
    else
      match children.getLast? with
      | some l => some [l]
      | none => none

/-! ## Positions, `filter_after_position`, `scope_names_generator` -/

/-- A `Name` leaf as the position-filtering code sees it: its string value and
its `start_pos` tuple, whose line component may be `None`. -/
structure PName where
  val : String
  line : Option Int
  col : Int
deriving DecidableEq

/-- Python tuple comparison `(l1, c1) < (l2, c2)`: lexicographic. -/
def posLt (a b : Int × Int) : Bool :=
  a.1 < b.1 || (a.1 == b.1 && a.2 < b.2)

/-- Whether the guarded test `n.start_pos[0] is not None and n.start_pos <
position` of `filter_after_position` accepts the name. -/
def name_starts_before (n : PName) (pos : Int × Int) : Bool :=
  match n.line with
  | some l => posLt (l, n.col) pos
  | none => false

/-- Embeds `filter_after_position` (lines 67-79): `position is None` returns
the list unchanged; otherwise an append loop keeps exactly the names whose
`start_pos` line is not `None` and whose `start_pos` is before `position`. -/
def filter_after_position (names : List PName) (position : Option (Int × Int)) :
    List PName :=
  match position with
  | none => names
  | some pos =>
    names.foldl (fun acc n => if name_starts_before n pos then acc ++ [n] else acc) []

/-- A scope as `scope_names_generator` uses it: an identity (to stand for the
owning scope yielded in the pair) and the result of its
`get_defined_names()`. -/
structure PScope where
  scope_id : Nat
  definedNames : List PName
deriving DecidableEq

/-- Embeds `Function.scope_names_generator` / `Class.scope_names_generator`
(lines 736-737 and 802-803): the generator body is the single statement
`yield self, filter_after_position(self.get_defined_names(), position)`, so
the yielded sequence is this one-element list. -/
def scope_names_generator (s : PScope) (position : Option (Int × Int)) :
    List (PScope × List PName) :=
  [(s, filter_after_position s.definedNames position)]

/-- Modelled from the spec: the spec describes `scope_names_generator` as
yielding "one entry per enclosing scope from innermost outward"; `chain` is
the list of enclosing scopes, innermost first, and each entry pairs the scope
with its position-filtered names. -/
def spec_scope_names (chain : List PScope) (position : Option (Int × Int)) :
    List (PScope × List PName) :=
  chain.map (fun s => (s, filter_after_position s.definedNames position))

/-! ## Flow chains: `Flow.set_next`

A flow segment is a numeric identity; `FlowHeap` maps each identity to its
`next` link (`none` for `self.next is None`).  `Flow.set_next` recurses to
the current tail, so the embedding carries fuel; `none` stands for a call
that never reaches a segment without a `next` link. -/

def FlowHeap : Type := Nat → Option Nat

/-- Embeds `Flow.set_next` (lines 933-941): if `self.next` is set, delegate
to it, otherwise store the new segment as `self.next`.  (The `parent` and
`previous` writes of the source touch neither the `next` links nor the chain
shape modelled here.) -/
def set_next : Nat → FlowHeap → Nat → Nat → Option FlowHeap
  | 0, _, _, _ => none
  | fuel + 1, heap, s, new =>
    match heap s with
    | some nxt => set_next fuel heap nxt new
    | none => some (fun i => if i = s then some new else heap i)

/-- The tail of the `next` chain starting at `s`: the first segment reached
whose `next` is unset. -/
def tail_of : Nat → FlowHeap → Nat → Option Nat
  | 0, _, _ => none
  | fuel + 1, heap, s =>
    match heap s with
    | some nxt => tail_of fuel heap nxt
    | none => some s

/-! ## `Array`: dict / non-dict access protocols -/

/-- `Array.type`: `NOARRAY` is Python `None`, the others are the string
constants `'tuple'`, `'list'`, `'dict'`, `'set'`. -/
inductive ArrayType where
  | noarray
  | tuple
  | list
  | dict
  | set
deriving DecidableEq

/-- An `Array` object: its type tag and its parallel `keys` / `values`
statement lists (element type abstract). -/
structure PyArray (α : Type) where
  type : ArrayType
  keys : List α
  values : List α

/-- Embeds `Array.__iter__` (lines 1407-1410): a `TypeError` on a DICT-typed
array, otherwise the value sequence. -/
def Array_iter {α : Type} (a : PyArray α) : Except String (List α) :=
  if a.type = ArrayType.dict then .error "no dicts allowed"
  else .ok a.values

/-- Embeds `Array.__getitem__` (lines 1402-1405): a `TypeError` on a
DICT-typed array, otherwise `self.values[key]` (an `IndexError` is a distinct
error). -/
def Array_getitem {α : Type} (a : PyArray α) (key : Nat) : Except String α :=
  if a.type = ArrayType.dict then .error "no dicts allowed"
  else
    match a.values.get? key with
    | some v => .ok v
    | none => .error "IndexError"

/-- Embeds `Array.items` (lines 1412-1415): a `TypeError` on anything but a
DICT-typed array, otherwise `zip(self.keys, self.values)`. -/
def Array_items {α : Type} (a : PyArray α) : Except String (List (α × α)) :=
  if a.type ≠ ArrayType.dict then .error "only dicts allowed"
  else .ok (a.keys.zip a.values)

/-! ## `Name.assignment_indexes`

The upward walk needs Python object identity and parent links, so trees are
embedded here as a heap of objects addressed by numeric identity. -/

/-- One parser object as `assignment_indexes` inspects it: whether it is an
instance of `Node` (statements like `ExprStmt` are not), its grammar symbol,
its child identities and its parent link. -/
structure PyObj where
  is_node_cls : Bool
  sym : Sym
  children : List Nat
  parent : Option Nat

/-- The test `is_node(node, 'testlist_comp') or is_node(node,
'testlist_star_expr')` of `assignment_indexes`. -/
def is_tuple_node (o : PyObj) : Bool :=
  o.is_node_cls && (o.sym == Sym.testlist_comp || o.sym == Sym.testlist_star_expr)

/-- Result of `assignment_indexes`: a normal return, the raised
`LookupError("Couldn't find the assignment.")`, or exhausted fuel (the walk
did not reach the root). -/
inductive AIResult where
  | ok (indexes : List Nat)
  | lookupError
  | fuelOut
deriving DecidableEq

/-- The `while node is not None` loop of `Name.assignment_indexes` (lines
272-286): at a tuple-context node, find `compare` among the children by
identity and prepend `i / 2`, raising `LookupError` when it is absent; then
move `compare`/`node` one level up. -/
def assignment_indexes_loop (env : Nat → PyObj) :
    Nat → Option Nat → Nat → List Nat → AIResult
  | _, none, _, idxs => .ok idxs
  | 0, some _, _, _ => .fuelOut
  | fuel + 1, some nid, compare, idxs =>
    if is_tuple_node (env nid) then
      match (env nid).children.findIdx? (· == compare) with
      | some i => assignment_indexes_loop env fuel (env nid).parent nid (i / 2 :: idxs)
      | none => .lookupError
    else
      assignment_indexes_loop env fuel (env nid).parent nid idxs

/-- Embeds `Name.assignment_indexes`: the loop starts at `self.parent` with
`compare = self` and an empty index list. -/
def assignment_indexes (env : Nat → PyObj) (name : Nat) (fuel : Nat) : AIResult :=
  assignment_indexes_loop env fuel (env name).parent name []

/-- The parent chain from a starting link up to the root; `none` when `fuel`
does not reach the root (e.g. a parent cycle). -/
def parent_chain (env : Nat → PyObj) : Nat → Option Nat → Option (List Nat)
  | _, none => some []
  | 0, some _ => none
  | fuel + 1, some nid => (parent_chain env fuel (env nid).parent).map (fun l => nid :: l)

/-- The tree above `compare` is inconsistent: somewhere on the parent walk
starting at the given link, a tuple-context ancestor's children do not
contain (by identity) the node the walk arrived from. -/
inductive Inconsistent (env : Nat → PyObj) : Nat → Option Nat → Prop where
  | here (compare nid : Nat) :
      is_tuple_node (env nid) = true →
      (env nid).children.findIdx? (· == compare) = none →
      Inconsistent env compare (some nid)
  | there (compare nid : Nat) :
      Inconsistent env nid (env nid).parent →
      Inconsistent env compare (some nid)

/-! ## Concrete example inputs -/

/-- The child list of the statement `a.b = 1`: a `power` target whose last
trailer is the attribute access `.b`. -/
def ex_attr_stmt : List PyTree :=
  [.pnode .power
      [.pleaf .name "a", .pnode .trailer [.pleaf .operator ".", .pleaf .name "b"]],
   .pleaf .operator "=", .pleaf .literal "1"]

/-- The child list of the statement `x, (y, z) = 2, ('', '')`. -/
def ex_tuple_stmt : List PyTree :=
  [.pnode .testlist_star_expr
      [.pleaf .name "x", .pleaf .operator ",",
       .pnode .atom
         [.pleaf .operator "(",
          .pnode .testlist_comp
            [.pleaf .name "y", .pleaf .operator ",", .pleaf .name "z"],
          .pleaf .operator ")"]],
   .pleaf .operator "=",
   .pnode .testlist_star_expr
     [.pleaf .literal "2", .pleaf .operator ",",
      .pnode .atom
        [.pleaf .operator "(",
         .pnode .testlist_comp
           [.pleaf .literal "''", .pleaf .operator ",", .pleaf .literal "''"],
         .pleaf .operator ")"]]]

/-- The child list of the statement `from x import *`. -/
def ex_star_import : List PyTree :=
  [.pleaf .keyword "from", .pleaf .name "x",
   .pleaf .keyword "import", .pleaf .operator "*"]

/-- An object heap for the statement `x, (y, z) = 2, ''`, all parent links
consistent: `0` is the name `y`, `3` the inner `testlist_comp`, `6` the
parenthesised `atom`, `10` the outer `testlist_star_expr`, `11` the
`ExprStmt` (not a `Node` instance). -/
def envC7good : Nat → PyObj := fun i =>
  if i = 0 then ⟨false, .other_sym, [], some 3⟩
  else if i = 1 then ⟨false, .other_sym, [], some 3⟩
  else if i = 2 then ⟨false, .other_sym, [], some 3⟩
  else if i = 3 then ⟨true, .testlist_comp, [0, 1, 2], some 6⟩
  else if i = 4 then ⟨false, .other_sym, [], some 6⟩
  else if i = 5 then ⟨false, .other_sym, [], some 6⟩
  else if i = 6 then ⟨true, .atom, [4, 3, 5], some 10⟩
  else if i = 7 then ⟨false, .other_sym, [], some 10⟩
  else if i = 8 then ⟨false, .other_sym, [], some 10⟩
  else if i = 10 then ⟨true, .testlist_star_expr, [7, 8, 6], some 11⟩
  else ⟨false, .other_sym, [], none⟩

/-- An inconsistent heap: the name `0` reports parent `1`, a `testlist_comp`
whose children (`[2]`) do not contain `0`. -/
def envC7bad : Nat → PyObj := fun i =>
  if i = 0 then ⟨false, .other_sym, [], some 1⟩
  else ⟨true, .testlist_comp, [2], none⟩

/-- A leaf/node tree for the source text `x = 1`. -/
def ex_tree : Tree :=
  .node [.leaf "" "x" (1, 0), .leaf " " "=" (1, 2), .leaf " " "1" (1, 4)]

/-! ## Helper lemmas -/

theorem textOf_append (a b : List (String × String)) :
    textOf (a ++ b) = textOf a ++ textOf b := by
  induction a with
  | nil => simp [textOf]
  | cons x xs ih =>
    simp only [textOf, List.foldr_cons, List.cons_append] at *
    rw [ih]
    simp [String.append_assoc]

mutual

theorem get_code_eq_leafText : ∀ t, get_code t = leafText t
  | .leaf p v sp => by simp [get_code, leaves, leafText, textOf]
  | .node cs => by
    simp only [get_code, leaves, leafText]
    exact get_code_list_eq_textOf cs

theorem get_code_list_eq_textOf : ∀ ts, get_code_list ts = textOf (leaves_list ts)
  | [] => by simp [get_code_list, leaves_list, textOf]
  | t :: ts => by
    simp only [get_code_list, leaves_list]
    rw [textOf_append, get_code_eq_leafText t, get_code_list_eq_textOf ts, leafText]

end

theorem get_code_list_eq_foldr :
    ∀ ts : List Tree, get_code_list ts = (ts.map get_code).foldr (· ++ ·) ""
  | [] => rfl
  | t :: ts => by
    simp only [get_code_list, List.map_cons, List.foldr_cons,
      get_code_list_eq_foldr ts]

mutual

theorem shape_of_move : ∀ (lo co : Int) (t : Tree),
    shape_of (move lo co t) = shape_of t
  | _, _, .leaf _ _ _ => rfl
  | lo, co, .node cs => by
    simp only [move, shape_of]
    rw [shape_of_move_list lo co cs]

theorem shape_of_move_list : ∀ (lo co : Int) (ts : List Tree),
    shape_of_list (move_list lo co ts) = shape_of_list ts
  | _, _, [] => rfl
  | lo, co, t :: ts => by
    simp only [move_list, shape_of_list]
    rw [shape_of_move lo co t, shape_of_move_list lo co ts]

end

mutual

theorem get_code_move : ∀ (lo co : Int) (t : Tree),
    get_code (move lo co t) = get_code t
  | _, _, .leaf _ _ _ => rfl
  | lo, co, .node cs => by
    simp only [move, get_code]
    exact get_code_move_list lo co cs

theorem get_code_move_list : ∀ (lo co : Int) (ts : List Tree),
    get_code_list (move_list lo co ts) = get_code_list ts
  | _, _, [] => rfl
  | lo, co, t :: ts => by
    simp only [move_list, get_code_list]
    rw [get_code_move lo co t, get_code_move_list lo co ts]

end

theorem foldl_keep_eq_filter (p : PName → Bool) (names : List PName) :
    ∀ acc, names.foldl (fun acc n => if p n then acc ++ [n] else acc) acc
      = acc ++ names.filter p := by
  induction names with
  | nil => intro acc; simp
  | cons x xs ih =>
    intro acc
    simp only [List.foldl_cons, List.filter_cons]
    by_cases h : p x
    · simp only [h, if_true, ih]
      simp
    · simp only [h, if_false, ih]
      simp [h]

theorem set_next_of_tail :
    ∀ (fuel : Nat) (heap : FlowHeap) (s new t : Nat),
      tail_of fuel heap s = some t →
      heap t = none ∧
      set_next fuel heap s new = some (fun i => if i = t then some new else heap i) := by
  intro fuel
  induction fuel with
  | zero =>
    intro heap s new t h
    simp [tail_of] at h
  | succ n ih =>
    intro heap s new t h
    unfold tail_of at h
    unfold set_next
    cases hs : heap s with
    | none =>
      rw [hs] at h
      cases h
      exact ⟨hs, rfl⟩
    | some nxt =>
      rw [hs] at h
      exact ih heap nxt new t h

theorem inconsistent_raises (env : Nat → PyObj) :
    ∀ (fuel : Nat) (link : Option Nat) (compare : Nat) (idxs : List Nat),
      Inconsistent env compare link →
      (parent_chain env fuel link).isSome = true →
      assignment_indexes_loop env fuel link compare idxs = .lookupError := by
  intro fuel
  induction fuel with
  | zero =>
    intro link compare idxs hinc hch
    cases hinc <;> simp [parent_chain] at hch
  | succ n ih =>
    intro link compare idxs hinc hch
    have hch' : ∀ nid, link = some nid →
        (parent_chain env n (env nid).parent).isSome = true := by
      intro nid hl
      subst hl
      unfold parent_chain at hch
      cases h : parent_chain env n (env nid).parent <;> simp [h] at hch ⊢
    cases hinc with
    | here compare nid htup hfind =>
      unfold assignment_indexes_loop
      simp [htup, hfind]
    | there compare nid hrec =>
      unfold assignment_indexes_loop
      by_cases ht : is_tuple_node (env nid)
      · cases hf : (env nid).children.findIdx? (· == compare) with
        | some i =>
          simp only [ht, if_true, hf]
          exact ih _ _ _ hrec (hch' nid rfl)
        | none => simp [ht, hf]
      · simp only [ht, if_false]
        exact ih _ _ _ hrec (hch' nid rfl)

theorem filter_after_position_some (names : List PName) (pos : Int × Int) :
    filter_after_position names (some pos)
      = names.filter (fun n => name_starts_before n pos) := by
  unfold filter_after_position
  simpa using foldl_keep_eq_filter (fun n => name_starts_before n pos) names []

/-! ## The claims -/

/-- C2: on a leaf, `get_code` returns the prefix concatenated with the value;
on an interior node it returns the concatenation of the children's
`get_code` in child order; hence on the root of any parse of source text `S`
it returns exactly `S`. -/
theorem get_code_round_trip :
    (∀ (p v : String) (sp : Int × Int), get_code (.leaf p v sp) = p ++ v) ∧
    (∀ cs : List Tree, get_code (.node cs) = (cs.map get_code).foldr (· ++ ·) "") ∧
    (∀ (t : Tree) (S : String), IsParseOf t S → get_code t = S) := by
  refine ⟨fun p v sp => rfl, fun cs => ?_, fun t S h => ?_⟩
  · simpa [get_code] using get_code_list_eq_foldr cs
  · rw [get_code_eq_leafText t]; exact h

/-- Witness for C2 at a concrete parse: the three-leaf tree of `x = 1`
satisfies the parse invariant and reproduces its source text. -/
theorem get_code_round_trip_witness :
    IsParseOf ex_tree "x = 1" ∧ get_code ex_tree = "x = 1" :=
  ⟨rfl, get_code_round_trip.2.2 ex_tree "x = 1" rfl⟩

/-- C10: `move` changes only leaf positions — the child structure and every
leaf's prefix and value are unchanged (same `Shape`) — so `get_code` returns
the same string before and after the move. -/
theorem move_preserves_code :
    ∀ (lo co : Int) (t : Tree),
      shape_of (move lo co t) = shape_of t ∧
      get_code (move lo co t) = get_code t :=
  fun lo co t => ⟨shape_of_move lo co t, get_code_move lo co t⟩

/-- C1 counterexample: for the statement `a.b = 1` the live
`Statement.get_defined_names` returns the attribute name leaf `b`, not the
empty list the claim demands. -/
theorem attr_assignment_not_empty :
    Statement_get_defined_names 9 ex_attr_stmt = some [.pleaf .name "b"] ∧
    Statement_get_defined_names 9 ex_attr_stmt ≠ some [] := by
  constructor
  · rfl
  · intro h
    have h2 := (show Statement_get_defined_names 9 ex_attr_stmt
        = some [PyTree.pleaf .name "b"] from rfl).symm.trans h
    simp at h2

/-- C1 amended: a pure attribute target contributes exactly the attribute's
name leaf (`a.b = 1` yields `[b]`, not `[]`), while a subscript target
contributes no names. -/
theorem attr_target_yields_attr_name :
    ∀ (x b : String) (rhs idx : PyTree),
      Statement_get_defined_names 9
        [.pnode .power
            [.pleaf .name x, .pnode .trailer [.pleaf .operator ".", .pleaf .name b]],
         .pleaf .operator "=", rhs] = some [.pleaf .name b] ∧
      Statement_get_defined_names 9
        [.pnode .power
            [.pleaf .name x,
             .pnode .trailer [.pleaf .operator "[", idx, .pleaf .operator "]"]],
         .pleaf .operator "=", rhs] = some [] := by
  intro x b rhs idx
  constructor
  · show collect_defined 9 _ (stmt_target_indexes 3) = _
    rfl
  · show collect_defined 9 _ (stmt_target_indexes 3) = _
    rfl

/-- C4: tuple/list targets unpack left-to-right (`x, (y, z) = 2, ('', '')`
yields `x, y, z`) and every `=`-segment of a chained assignment contributes
its names (`x = y = 2` yields `x, y`). -/
theorem tuple_and_chained_targets :
    Statement_get_defined_names 9 ex_tuple_stmt
      = some [.pleaf .name "x", .pleaf .name "y", .pleaf .name "z"] ∧
    ∀ (v1 v2 : String) (rhs : PyTree),
      Statement_get_defined_names 9
        [.pleaf .name v1, .pleaf .operator "=",
         .pleaf .name v2, .pleaf .operator "=", rhs]
        = some [.pleaf .name v1, .pleaf .name v2] := by
  constructor
  · rfl
  · intro v1 v2 rhs
    show collect_defined 9 _ (stmt_target_indexes 5) = _
    rfl

/-- C5 counterexample: `from x import *` makes `Import.get_defined_names`
return the star operator as a one-element list, not the empty list the claim
demands. -/
theorem star_import_yields_star :
    Import_get_defined_names ex_star_import = some [.pleaf .operator "*"] ∧
    Import_get_defined_names ex_star_import ≠ some [] := by
  constructor
  · rfl
  · intro h
    have h2 := (show Import_get_defined_names ex_star_import
        = some [PyTree.pleaf .operator "*"] from rfl).symm.trans h
    simp at h2

/-- C5 amended: `Import.get_defined_names` returns all children after the
leading `import` keyword for a plain import (separators and any `as` clauses
included, unfiltered) and the last child for any other (`from`) import; in
particular a star import yields the `*` operator and aliases get no special
handling. -/
theorem import_defined_names_spec :
    ∀ (c0 : PyTree) (rest : List PyTree),
      (py_eq_str c0 "import" = true →
        Import_get_defined_names (c0 :: rest) = some rest) ∧
      (py_eq_str c0 "import" = false →
        Import_get_defined_names (c0 :: rest)
          = some [(c0 :: rest).getLast (List.cons_ne_nil c0 rest)]) := by
  intro c0 rest
  constructor
  · intro h
    unfold Import_get_defined_names
    simp [h]
  · intro h
    unfold Import_get_defined_names
    simp [h, List.getLast?_eq_getLast_of_ne_nil (List.cons_ne_nil c0 rest)]

/-- Witness for the amended C5: a plain `import a, b` child list returns
everything after the keyword (comma included); a `from x import y` child
list returns its last child. -/
theorem import_defined_names_witness :
    Import_get_defined_names
        [.pleaf .keyword "import", .pleaf .name "a",
         .pleaf .operator ",", .pleaf .name "b"]
      = some [.pleaf .name "a", .pleaf .operator ",", .pleaf .name "b"] ∧
    Import_get_defined_names
        [.pleaf .keyword "from", .pleaf .name "x",
         .pleaf .keyword "import", .pleaf .name "y"]
      = some [.pleaf .name "y"] :=
  ⟨(import_defined_names_spec _ _).1 rfl, (import_defined_names_spec _ _).2 rfl⟩

/-- C6 counterexample: on a scope with a second, enclosing scope the
generator still yields a single entry, not one entry per enclosing scope. -/
theorem scope_names_generator_not_outward :
    scope_names_generator ⟨1, []⟩ none
      ≠ spec_scope_names [⟨1, []⟩, ⟨2, []⟩] none := by
  decide

/-- C6 amended: `scope_names_generator` yields exactly one entry — the scope
itself paired with its defined names filtered to those starting before the
position — and does not enumerate enclosing scopes. -/
theorem scope_names_generator_single_entry :
    ∀ (s : PScope) (pos : Int × Int),
      scope_names_generator s (some pos)
        = [(s, s.definedNames.filter (fun n => name_starts_before n pos))] ∧
      scope_names_generator s none = [(s, s.definedNames)] := by
  intro s pos
  constructor
  · unfold scope_names_generator
    rw [filter_after_position_some]
  · rfl

/-- C7: whenever some tuple-context ancestor's children do not contain the
branch leading to the name, `assignment_indexes` raises its
structural-inconsistency error (`LookupError`) instead of returning; and on
the consistent tree of `x, (y, z) = 2, ''` it returns the halved branch
indexes `[1, 0]` for `y`. -/
theorem assignment_indexes_spec :
    (∀ (env : Nat → PyObj) (nm fuel : Nat),
        Inconsistent env nm ((env nm).parent) →
        (parent_chain env fuel ((env nm).parent)).isSome = true →
        assignment_indexes env nm fuel = .lookupError) ∧
    assignment_indexes envC7good 0 12 = .ok [1, 0] := by
  constructor
  · intro env nm fuel hinc hch
    exact inconsistent_raises env fuel _ nm [] hinc hch
  · rfl

/-- Witness for C7 at the concrete inconsistent heap `envC7bad`: the walk
from name `0` raises the lookup error. -/
theorem assignment_indexes_spec_witness :
    assignment_indexes envC7bad 0 4 = .lookupError :=
  assignment_indexes_spec.1 envC7bad 0 4 (Inconsistent.here 0 1 rfl rfl) rfl

/-- C8: a DICT-typed Array rejects plain sequence access — both iteration and
indexing raise `TypeError` — and a non-DICT Array rejects `items()`; the two
access protocols are never interchangeable. -/
theorem array_dict_duality :
    ∀ (α : Type) (a : PyArray α) (key : Nat),
      (a.type = ArrayType.dict →
        Array_iter a = .error "no dicts allowed" ∧
        Array_getitem a key = .error "no dicts allowed") ∧
      (a.type ≠ ArrayType.dict →
        Array_items a = .error "only dicts allowed") := by
  intro α a key
  refine ⟨fun h => ⟨?_, ?_⟩, fun h => ?_⟩
  · simp [Array_iter, h]
  · simp [Array_getitem, h]
  · simp [Array_items, h]

/-- Witness for C8 on concrete arrays: an empty DICT array and an empty
tuple array. -/
theorem array_dict_duality_witness :
    (Array_iter (⟨ArrayType.dict, [], []⟩ : PyArray Nat) = .error "no dicts allowed" ∧
      Array_getitem (⟨ArrayType.dict, [], []⟩ : PyArray Nat) 0 = .error "no dicts allowed") ∧
    Array_items (⟨ArrayType.tuple, [], []⟩ : PyArray Nat) = .error "only dicts allowed" :=
  ⟨(array_dict_duality Nat ⟨ArrayType.dict, [], []⟩ 0).1 rfl,
   (array_dict_duality Nat ⟨ArrayType.tuple, [], []⟩ 0).2 (by decide)⟩

/-- C9: `filter_after_position` returns the list unchanged when the position
is `None`, and otherwise keeps, in their original order, exactly the names
whose start position is strictly before the position. -/
theorem filter_after_position_spec :
    ∀ (names : List PName),
      filter_after_position names none = names ∧
      ∀ pos : Int × Int,
        filter_after_position names (some pos)
          = names.filter (fun n => name_starts_before n pos) :=
  fun names => ⟨rfl, fun pos => filter_after_position_some names pos⟩

/-- C3 counterexample: starting from the one-segment chain `0`, calling
`set_next` twice with the same new segment `1` leaves `1` linked to itself
(`0 → 1 → 1`): the chain does not stay acyclic, so re-invocation with the
same segment does break the chain. -/
theorem set_next_twice_self_link :
    (((set_next 5 (fun _ => none) 0 1).bind (fun h => set_next 5 h 0 1)).map
        (fun h => h 1) = some (some 1)) ∧
    (((set_next 5 (fun _ => none) 0 1).bind (fun h => set_next 5 h 0 1)).map
        (fun h => h 0) = some (some 1)) :=
  ⟨rfl, rfl⟩

/-- C3 amended: `set_next` appends the new segment at the current tail of the
chain and never overwrites an existing `next` link — the single cell it
writes held no link; but it is not idempotent: repeating the call with the
same segment self-links that segment (see the counterexample). -/
theorem set_next_appends_at_tail :
    ∀ (fuel : Nat) (heap : FlowHeap) (s new t : Nat),
      tail_of fuel heap s = some t →
      heap t = none ∧
      set_next fuel heap s new
        = some (fun i => if i = t then some new else heap i) :=
  set_next_of_tail

/-- Witness for the amended C3: appending segment `1` to the empty-chain
segment `0`. -/
theorem set_next_appends_at_tail_witness :
    ((fun _ => none : FlowHeap) 0 = none) ∧
    set_next 1 (fun _ => none) 0 1
      = some (fun i => if i = 0 then some 1 else (fun _ => none : FlowHeap) i) :=
  set_next_appends_at_tail 1 (fun _ => none) 0 1 0 rfl

end JediRepr
